/-
Verification of the Timeline Compositor of the newsflow repository.

The definitions below are a shallow embedding of the rendering core in
src/components/ProductionMonitor.tsx: the timeline-construction loop, the
active-segment lookup, the per-tick compositing (seek + aspect-fit draw),
the zero-asset guard and the recorder finalization.  Real-number media
times are modelled as exact rationals.
-/
import Mathlib

/-- The two media kinds handled by the compositor (`asset.type` in the source). -/
inductive AssetKind where
  | image
  | video
deriving DecidableEq, Repr

/-- A decoded media handle as the render loop sees it: the asset's kind plus the
natural pixel dimensions of the decoded element and, for videos, the decoded
duration (`none` models an undeterminable/NaN duration, which is falsy in the
source's `element.duration || 5`). -/
structure LoadedAsset where
  kind : AssetKind
  width : ℚ
  height : ℚ
  vidDuration : Option ℚ
deriving DecidableEq, Repr

instance : Inhabited LoadedAsset := ⟨⟨AssetKind.image, 0, 0, none⟩⟩

/-- Duration of one timeline occurrence of an asset, from the source:
`let duration = 5; if (asset.type === 'video') duration = element.duration || 5`.
The `|| 5` fallback fires when the decoded duration is 0 or undeterminable. -/
def occDuration (a : LoadedAsset) : ℚ :=
  match a.kind with
  | AssetKind.image => 5
  | AssetKind.video =>
      match a.vidDuration with
      | none => 5
      | some d => if d = 0 then 5 else d

/-- One entry of the expanded timeline, from the source's
`timeline.push({ assetIndex, start, end, type, element, duration })`.
`startTime`/`endTime` are the source's `start`/`end` (`end` is reserved in Lean);
`asset` bundles the source's `type` and `element` fields. -/
structure Segment where
  assetIndex : Nat
  startTime : ℚ
  endTime : ℚ
  asset : LoadedAsset
  duration : ℚ
deriving DecidableEq, Repr

/-- The segment-construction loop
`while (cursor < totalDuration) { ... cursor += duration; assetIdx++; }`,
made total by a fuel argument: `none` models a loop that has not terminated
within `fuel` iterations.  The asset of each occurrence is
`assets[assetIdx % assets.length]`. -/
def buildAux (assets : List LoadedAsset) (total : ℚ) (fuel : Nat) (cursor : ℚ)
    (idx : Nat) : Option (List Segment) :=
  if cursor < total then
    match fuel with
    | 0 => none
    | f + 1 =>
      let a := assets.getD (idx % assets.length) default
      let d := occDuration a
      (buildAux assets total f (cursor + d) (idx + 1)).map
        (fun rest =>
          { assetIndex := idx, startTime := cursor, endTime := cursor + d,
            asset := a, duration := d } :: rest)
  else some []

/-- A lower bound on every occurrence duration of the asset list (the image
default 5 is always a candidate, and every video occurrence duration is a
candidate). Used only to compute sufficient fuel for `buildAux`. -/
def minOcc (assets : List LoadedAsset) : ℚ :=
  assets.foldr (fun a m => min (occDuration a) m) 5

/-- The timeline built by the source's construction loop, starting from
`cursor = 0`, `assetIdx = 0`, with enough fuel for the loop to finish whenever
every occurrence duration is positive. -/
def buildTimeline (assets : List LoadedAsset) (total : ℚ) : Option (List Segment) :=
  buildAux assets total (⌈total / minOcc assets⌉.toNat) 0 0

/-- A segment is active at elapsed time `t` when `t` lies in its span;
the end comparison is strict, as in the source's `elapsed < t.end`. -/
def covers (s : Segment) (t : ℚ) : Prop :=
  s.startTime ≤ t ∧ t < s.endTime

instance (s : Segment) (t : ℚ) : Decidable (covers s t) := by
  unfold covers; infer_instance

/-- The render loop's active-segment lookup:
`timeline.find(t => elapsed >= t.start && elapsed < t.end) || timeline[timeline.length-1]`.
When no segment matches, JS `find` yields `undefined` and the `||` falls back to
the last entry (itself `undefined` on an empty timeline, modelled by `none`). -/
def findActive (tl : List Segment) (e : ℚ) : Option Segment :=
  match tl.find? (fun s => decide (covers s e)) with
  | some s => some s
  | none => tl.getLast?

/-- The source's `(elapsed - activeItem.start) % activeItem.duration`.  For the
nonnegative dividend and positive divisor the render loop uses, JavaScript's
truncated remainder agrees with this floor-based remainder. -/
def jsMod (a b : ℚ) : ℚ := a - b * ⌊a / b⌋

/-- All durations reported by decoded video handles are nonnegative, as browser
media elements guarantee (a duration is NaN — modelled `none` — or `≥ 0`). -/
def NonnegDurations (assets : List LoadedAsset) : Prop :=
  ∀ a ∈ assets, 0 ≤ a.vidDuration.getD 0

instance (assets : List LoadedAsset) : Decidable (NonnegDurations assets) := by
  unfold NonnegDurations; infer_instance

/-- The rectangle handed to `ctx.drawImage(img, offsetX, offsetY, renderW, renderH)`. -/
structure DrawRect where
  offsetX : ℚ
  offsetY : ℚ
  renderW : ℚ
  renderH : ℚ
deriving DecidableEq, Repr

/-- The source's `drawImageContain(ctx, img, cw, ch)` helper: aspect-fit placement
of a frame of natural size `iw × ih` into a `cw × ch` canvas.  `none` models the
early `if (!imgWidth || !imgHeight) return;` (a zero/unavailable dimension is
falsy), in which case nothing is drawn. -/
def drawImageContain (iw ih cw ch : ℚ) : Option DrawRect :=
  if iw = 0 ∨ ih = 0 then none
  else
    let imgAspect := iw / ih
    let canvasAspect := cw / ch
    if imgAspect > canvasAspect then
      some ⟨0, (ch - cw / imgAspect) / 2, cw, cw / imgAspect⟩
    else
      some ⟨(cw - ch * imgAspect) / 2, 0, ch * imgAspect, ch⟩

/-- The observable canvas/media operations of one body of `renderLoop`:
painting the black background (`fillRect`), seeking a video handle
(`vid.currentTime = vidTime`), and drawing the sampled frame (`drawImage`). -/
inductive PaintOp where
  | fillBlack
  | seek (offset : ℚ)
  | draw (r : DrawRect)
deriving DecidableEq, Repr

/-- One tick of the source's `renderLoop` after the stop check: look up the
active item; if one exists, clear to black, then for an image draw it directly,
and for a video first seek to `(elapsed - start) % duration` and then draw.
The draw is dropped when `drawImageContain` bails out on a zero dimension. -/
def renderTick (tl : List Segment) (cw ch elapsed : ℚ) : List PaintOp :=
  match findActive tl elapsed with
  | none => []
  | some item =>
    match item.asset.kind with
    | AssetKind.image =>
        PaintOp.fillBlack ::
          (match drawImageContain item.asset.width item.asset.height cw ch with
           | none => []
           | some r => [PaintOp.draw r])
    | AssetKind.video =>
        PaintOp.fillBlack ::
          PaintOp.seek (jsMod (elapsed - item.startTime) item.duration) ::
          (match drawImageContain item.asset.width item.asset.height cw ch with
           | none => []
           | some r => [PaintOp.draw r])

/-- The slice of `GeneratedContent` that `renderVideoBlob` reads: the audio URL
(optional), the loaded asset list and the aspect-ratio selector string. -/
structure Content where
  audioUrl : Option String
  assets : List LoadedAsset
  aspect : String
deriving DecidableEq, Repr

/-- What a completed render pass produced: the built timeline and the paint
operations of each rendering tick. -/
structure RenderOutcome where
  timeline : List Segment
  frames : List (List PaintOp)
deriving DecidableEq, Repr

/-- The `renderVideoBlob` pipeline up to frame production.  The guard is the
source's `if (!content.audioUrl || content.assets.length === 0) throw new
Error("Missing content")`, checked before any timeline is built.  Resolution
follows `content.aspectRatio === '9:16' ? 1080×1920 : 1920×1080`.  The render
loop samples elapsed times `ticks` in order and stops at the first sample
`≥ total` (`if (elapsed >= totalDuration) { recorder.stop(); return; }`);
the error on a `none` timeline models the construction loop never
terminating, which is unreachable for nonnegative decoded durations. -/
def renderPass (c : Content) (total : ℚ) (ticks : List ℚ) :
    Except String RenderOutcome :=
  if c.audioUrl.isNone || c.assets.isEmpty then Except.error "Missing content"
  else
    match buildTimeline c.assets total with
    | none => Except.error "construction loop diverged"
    | some tl =>
        let w : ℚ := if c.aspect = "9:16" then 1080 else 1920
        let h : ℚ := if c.aspect = "9:16" then 1920 else 1080
        Except.ok ⟨tl, (ticks.takeWhile (fun e => decide (e < total))).map
          (renderTick tl w h)⟩

/-- The recorder's chunk collection:
`ondataavailable` keeps only nonempty data (`if (e.data.size > 0) chunks.push(e.data)`). -/
def collectChunks (events : List (List Nat)) : List (List Nat) :=
  events.filter (fun e => 0 < e.length)

/-- The recorder's `onstop` handler: unconditionally resolves
`new Blob(chunks, { type: 'video/webm' })`, the concatenation of the collected
chunks in arrival order — it never reports an error, even for zero chunks. -/
def finalizeRecording (events : List (List Nat)) : Except String (List Nat) :=
  Except.ok (collectChunks events).flatten

/-- Running cursor value after laying out a list of segments (the loop's
`cursor` when the construction loop exits). -/
def finalCursor : ℚ → List Segment → ℚ
  | c, [] => c
  | _, s :: rest => finalCursor s.endTime rest

/-- The segments of a timeline suffix laid out contiguously from cursor `c`:
each starts exactly at the running cursor and spans its duration. -/
def contiguousFrom : ℚ → List Segment → Prop
  | _, [] => True
  | c, s :: rest => s.startTime = c ∧ s.endTime = c + s.duration ∧
      contiguousFrom s.endTime rest

/-- Adjacent-pair contiguity: each segment ends exactly where the next starts. -/
def Contiguous : List Segment → Prop
  | [] => True
  | [_] => True
  | a :: b :: rest => a.endTime = b.startTime ∧ Contiguous (b :: rest)

/- ### Concrete test fixtures (the spec's scenario inputs) -/

/-- A still image asset (any positive natural size; 16×9 here). -/
def imgA : LoadedAsset := ⟨AssetKind.image, 16, 9, none⟩

/-- A video asset whose decoded duration is 12 seconds. -/
def vid12 : LoadedAsset := ⟨AssetKind.video, 16, 9, some 12⟩

/-- A video asset whose decoded duration is undeterminable (NaN). -/
def vidU : LoadedAsset := ⟨AssetKind.video, 16, 9, none⟩

/-- The timeline the construction loop yields for `[imgA]` and total 12. -/
def tl12 : List Segment :=
  [⟨0, 0, 5, imgA, 5⟩, ⟨1, 5, 10, imgA, 5⟩, ⟨2, 10, 15, imgA, 5⟩]

/-- The single segment the loop yields for `[vid12]` and total 10. -/
def segV : Segment := ⟨0, 0, 12, vid12, 12⟩

-- Quick sanity checks of the embedding on concrete inputs.
example : occDuration ⟨AssetKind.video, 16, 9, some 12⟩ = 12 := by decide
example : occDuration ⟨AssetKind.video, 16, 9, none⟩ = 5 := by decide
example : occDuration ⟨AssetKind.video, 16, 9, some 0⟩ = 5 := by decide

/- ### Helper lemmas about occurrence durations -/

lemma occDuration_pos (a : LoadedAsset) (h : 0 ≤ a.vidDuration.getD 0) :
    0 < occDuration a := by
  unfold occDuration
  cases hk : a.kind with
  | image => norm_num
  | video =>
    cases hv : a.vidDuration with
    | none => norm_num
    | some d =>
      rw [hv] at h
      simp only [Option.getD_some] at h
      by_cases hd : d = 0
      · simp [hd]
      · simp only [hd, if_false]
        exact lt_of_le_of_ne h (Ne.symm hd)

lemma minOcc_le (assets : List LoadedAsset) (a : LoadedAsset) (ha : a ∈ assets) :
    minOcc assets ≤ occDuration a := by
  induction assets with
  | nil => cases ha
  | cons b rest ih =>
    rcases List.mem_cons.mp ha with h | h
    · subst h; exact min_le_left _ _
    · exact le_trans (min_le_right _ _) (ih h)

lemma minOcc_pos (assets : List LoadedAsset) (h : NonnegDurations assets) :
    0 < minOcc assets := by
  induction assets with
  | nil => norm_num [minOcc]
  | cons a rest ih =>
    have ha : 0 < occDuration a := occDuration_pos a (h a (List.mem_cons_self a rest))
    have hrest : NonnegDurations rest := fun b hb => h b (List.mem_cons_of_mem a hb)
    exact lt_min ha (ih hrest)

lemma getD_mem (assets : List LoadedAsset) (hne : assets ≠ []) (idx : Nat) :
    assets.getD (idx % assets.length) default ∈ assets := by
  have hlen : 0 < assets.length := List.length_pos.mpr hne
  have hlt : idx % assets.length < assets.length := Nat.mod_lt idx hlen
  rw [List.getD_eq_getElem _ _ hlt]
  exact List.getElem_mem hlt

/- ### Termination of the construction loop -/

lemma buildAux_isSome (assets : List LoadedAsset) (total : ℚ) (δ : ℚ)
    (hter : ∀ idx : Nat, δ ≤ occDuration (assets.getD (idx % assets.length) default)) :
    ∀ (fuel : Nat) (cursor : ℚ) (idx : Nat), total ≤ cursor + fuel * δ →
      (buildAux assets total fuel cursor idx).isSome := by
  intro fuel
  induction fuel with
  | zero =>
    intro cursor idx hge
    have : ¬ cursor < total := by push_cast at hge; intro hc; linarith
    simp [buildAux, this]
  | succ f ih =>
    intro cursor idx hge
    by_cases hc : cursor < total
    · have hd := hter idx
      have hrec := ih (cursor + occDuration (assets.getD (idx % assets.length) default))
        (idx + 1) (by push_cast at hge ⊢; linarith)
      obtain ⟨v, hv⟩ := Option.isSome_iff_exists.mp hrec
      simp only [buildAux, hc, if_true]
      rw [hv]
      rfl
    · simp [buildAux, hc]

lemma buildTimeline_isSome (assets : List LoadedAsset) (total : ℚ)
    (hne : assets ≠ []) (hnn : NonnegDurations assets) :
    (buildTimeline assets total).isSome := by
  have hδ : 0 < minOcc assets := minOcc_pos assets hnn
  apply buildAux_isSome assets total (minOcc assets)
    (fun idx => minOcc_le assets _ (getD_mem assets hne idx))
  rcases le_or_lt total 0 with h | h
  · have : (0:ℚ) ≤ (⌈total / minOcc assets⌉.toNat : ℚ) * minOcc assets := by positivity
    linarith
  · have h1 : total / minOcc assets ≤ (⌈total / minOcc assets⌉ : ℚ) := Int.le_ceil _
    have h2 : (⌈total / minOcc assets⌉ : ℚ) ≤ (⌈total / minOcc assets⌉.toNat : ℚ) := by
      have := Int.self_le_toNat ⌈total / minOcc assets⌉
      exact_mod_cast this
    have h3 : total / minOcc assets * minOcc assets ≤
        (⌈total / minOcc assets⌉.toNat : ℚ) * minOcc assets :=
      mul_le_mul_of_nonneg_right (le_trans h1 h2) (le_of_lt hδ)
    rw [div_mul_cancel₀ total (ne_of_gt hδ)] at h3
    linarith

/- ### Shape of the constructed timeline -/

lemma buildAux_spec (assets : List LoadedAsset) (total : ℚ) :
    ∀ (fuel : Nat) (cursor : ℚ) (idx : Nat) (tl : List Segment),
      buildAux assets total fuel cursor idx = some tl →
      contiguousFrom cursor tl ∧
      total ≤ finalCursor cursor tl ∧
      (cursor < total → tl ≠ []) ∧
      (∀ s ∈ tl, s.duration =
        occDuration (assets.getD (s.assetIndex % assets.length) default)) := by
  intro fuel
  induction fuel with
  | zero =>
    intro cursor idx tl h
    by_cases hc : cursor < total
    · simp [buildAux, hc] at h
    · simp only [buildAux, hc, if_false] at h
      cases h
      refine ⟨trivial, ?_, ?_, ?_⟩
      · simpa [finalCursor] using le_of_not_lt hc
      · intro hcon; exact absurd hcon hc
      · intro s hs; cases hs
  | succ f ih =>
    intro cursor idx tl h
    by_cases hc : cursor < total
    · simp only [buildAux, hc, if_true] at h
      rw [Option.map_eq_some'] at h
      obtain ⟨rest, hrest, hcons⟩ := h
      obtain ⟨h1, h2, h3, h4⟩ := ih _ _ _ hrest
      subst hcons
      refine ⟨⟨rfl, rfl, h1⟩, ?_, ?_, ?_⟩
      · simpa [finalCursor] using h2
      · intro _ hcon; cases hcon
      · intro s hs
        rcases List.mem_cons.mp hs with h | h
        · subst h; rfl
        · exact h4 s h
    · simp only [buildAux, hc, if_false] at h
      cases h
      refine ⟨trivial, ?_, ?_, ?_⟩
      · simpa [finalCursor] using le_of_not_lt hc
      · intro hcon; exact absurd hcon hc
      · intro s hs; cases hs

lemma buildTimeline_spec (assets : List LoadedAsset) (total : ℚ) (tl : List Segment)
    (h : buildTimeline assets total = some tl) :
    contiguousFrom 0 tl ∧ total ≤ finalCursor 0 tl ∧ (0 < total → tl ≠ []) ∧
      (∀ s ∈ tl, s.duration =
        occDuration (assets.getD (s.assetIndex % assets.length) default)) :=
  buildAux_spec assets total _ 0 0 tl h

lemma buildTimeline_pos_durations (assets : List LoadedAsset) (total : ℚ)
    (tl : List Segment) (hne : assets ≠ []) (hnn : NonnegDurations assets)
    (h : buildTimeline assets total = some tl) :
    ∀ s ∈ tl, 0 < s.duration := by
  intro s hs
  obtain ⟨-, -, -, h4⟩ := buildTimeline_spec assets total tl h
  rw [h4 s hs]
  refine occDuration_pos _ (hnn _ (getD_mem assets hne _))

/- ### Consequences of contiguity -/

lemma contiguousFrom_mem_lower (c : ℚ) (tl : List Segment)
    (hc : contiguousFrom c tl) (hp : ∀ s ∈ tl, 0 < s.duration) :
    ∀ s ∈ tl, c ≤ s.startTime ∧ s.startTime < s.endTime := by
  induction tl generalizing c with
  | nil => intro s hs; cases hs
  | cons a rest ih =>
    obtain ⟨ha1, ha2, ha3⟩ := hc
    intro s hs
    have hda : 0 < a.duration := hp a (List.mem_cons_self a rest)
    rcases List.mem_cons.mp hs with h | h
    · subst h; constructor
      · exact le_of_eq ha1.symm
      · rw [ha1, ha2]; linarith
    · have hrest := ih a.endTime ha3 (fun s hs => hp s (List.mem_cons_of_mem a hs)) s h
      constructor
      · calc c ≤ a.endTime := by rw [ha2]; linarith
          _ ≤ s.startTime := hrest.1
      · exact hrest.2

lemma contiguousFrom_coverage (c : ℚ) (tl : List Segment)
    (hc : contiguousFrom c tl) (hp : ∀ s ∈ tl, 0 < s.duration)
    (total : ℚ) (hfc : total ≤ finalCursor c tl) :
    ∀ t : ℚ, c ≤ t → t < total → ∃ s ∈ tl, covers s t := by
  induction tl generalizing c with
  | nil =>
    intro t hct htt
    exfalso
    simp only [finalCursor] at hfc
    linarith
  | cons a rest ih =>
    obtain ⟨ha1, ha2, ha3⟩ := hc
    intro t hct htt
    by_cases hta : t < a.endTime
    · exact ⟨a, List.mem_cons_self a rest, by rw [covers, ha1]; exact ⟨hct, hta⟩⟩
    · have hfc' : total ≤ finalCursor a.endTime rest := by
        simpa [finalCursor] using hfc
      obtain ⟨s, hs, hcov⟩ := ih a.endTime ha3
        (fun s hs => hp s (List.mem_cons_of_mem a hs)) hfc' t (le_of_not_lt hta) htt
      exact ⟨s, List.mem_cons_of_mem a hs, hcov⟩

lemma contiguousFrom_unique (c : ℚ) (tl : List Segment)
    (hc : contiguousFrom c tl) (hp : ∀ s ∈ tl, 0 < s.duration) (t : ℚ) :
    ∀ s₁ ∈ tl, ∀ s₂ ∈ tl, covers s₁ t → covers s₂ t → s₁ = s₂ := by
  induction tl generalizing c with
  | nil => intro s₁ hs₁; cases hs₁
  | cons a rest ih =>
    obtain ⟨ha1, ha2, ha3⟩ := hc
    have hrest : ∀ s ∈ rest, a.endTime ≤ s.startTime ∧ s.startTime < s.endTime :=
      contiguousFrom_mem_lower a.endTime rest ha3
        (fun s hs => hp s (List.mem_cons_of_mem a hs))
    intro s₁ hs₁ s₂ hs₂ hc₁ hc₂
    rcases List.mem_cons.mp hs₁ with h₁ | h₁ <;> rcases List.mem_cons.mp hs₂ with h₂ | h₂
    · rw [h₁, h₂]
    · exfalso
      obtain ⟨hl, -⟩ := hrest s₂ h₂
      subst h₁
      exact absurd hc₁.2 (not_lt.mpr (le_trans hl hc₂.1))
    · exfalso
      obtain ⟨hl, -⟩ := hrest s₁ h₁
      subst h₂
      exact absurd hc₂.2 (not_lt.mpr (le_trans hl hc₁.1))
    · exact ih a.endTime ha3 (fun s hs => hp s (List.mem_cons_of_mem a hs)) s₁ h₁ s₂ h₂ hc₁ hc₂

lemma contiguousFrom_boundary (c : ℚ) (tl : List Segment)
    (hc : contiguousFrom c tl) (hp : ∀ s ∈ tl, 0 < s.duration) (t : ℚ)
    (s : Segment) (hs : s ∈ tl) (hcov : covers s t)
    (s' : Segment) (hs' : s' ∈ tl) (he : s'.endTime = t) :
    s.startTime = t := by
  induction tl generalizing c with
  | nil => cases hs
  | cons a rest ih =>
    obtain ⟨ha1, ha2, ha3⟩ := hc
    have hprest : ∀ u ∈ rest, 0 < u.duration :=
      fun u hu => hp u (List.mem_cons_of_mem a hu)
    have hrest : ∀ u ∈ rest, a.endTime ≤ u.startTime ∧ u.startTime < u.endTime :=
      contiguousFrom_mem_lower a.endTime rest ha3 hprest
    rcases List.mem_cons.mp hs with h₁ | h₁ <;> rcases List.mem_cons.mp hs' with h₂ | h₂
    · exfalso
      subst h₁; subst h₂
      exact absurd hcov.2 (by rw [he]; exact lt_irrefl t)
    · exfalso
      subst h₁
      obtain ⟨hl, hlt⟩ := hrest s' h₂
      have : t < s'.endTime := lt_of_lt_of_le hcov.2 (le_trans hl (le_of_lt hlt))
      rw [he] at this
      exact lt_irrefl t this
    · subst h₂
      obtain ⟨hl, -⟩ := hrest s h₁
      rw [he] at hl
      exact le_antisymm hcov.1 hl
    · exact ih a.endTime ha3 hprest h₁ h₂

lemma contiguousFrom_pairwise (c : ℚ) (tl : List Segment)
    (hc : contiguousFrom c tl) (hp : ∀ s ∈ tl, 0 < s.duration) :
    tl.Pairwise (fun a b => a.endTime ≤ b.startTime) := by
  induction tl generalizing c with
  | nil => exact List.Pairwise.nil
  | cons a rest ih =>
    obtain ⟨ha1, ha2, ha3⟩ := hc
    have hprest : ∀ u ∈ rest, 0 < u.duration :=
      fun u hu => hp u (List.mem_cons_of_mem a hu)
    refine List.Pairwise.cons ?_ (ih a.endTime ha3 hprest)
    intro b hb
    exact (contiguousFrom_mem_lower a.endTime rest ha3 hprest b hb).1

lemma contiguousFrom_contiguous (c : ℚ) (tl : List Segment)
    (hc : contiguousFrom c tl) : Contiguous tl := by
  induction tl generalizing c with
  | nil => trivial
  | cons a rest ih =>
    obtain ⟨-, -, ha3⟩ := hc
    cases rest with
    | nil => trivial
    | cons b rest2 =>
      exact ⟨ha3.1.symm, ih a.endTime ha3⟩

lemma contiguousFrom_getLast (c : ℚ) (tl : List Segment)
    (hne : tl ≠ []) (hc : contiguousFrom c tl) :
    ∃ s, tl.getLast? = some s ∧ s.endTime = finalCursor c tl := by
  induction tl generalizing c with
  | nil => exact absurd rfl hne
  | cons a rest ih =>
    obtain ⟨-, -, ha3⟩ := hc
    cases rest with
    | nil => exact ⟨a, rfl, rfl⟩
    | cons b rest2 =>
      obtain ⟨s, hs1, hs2⟩ := ih a.endTime (List.cons_ne_nil b rest2) ha3
      exact ⟨s, by rw [List.getLast?_cons_cons]; exact hs1, hs2⟩

lemma find?_covers_eq (tl : List Segment) (t : ℚ) (s : Segment)
    (hs : s ∈ tl) (hcov : covers s t)
    (huniq : ∀ s₁ ∈ tl, ∀ s₂ ∈ tl, covers s₁ t → covers s₂ t → s₁ = s₂) :
    tl.find? (fun u => decide (covers u t)) = some s := by
  induction tl with
  | nil => cases hs
  | cons a rest ih =>
    by_cases hca : covers a t
    · have hsa : s = a :=
        huniq s hs a (List.mem_cons_self a rest) hcov hca
      rw [List.find?_cons_of_pos _ (by simpa using hca), hsa]
    · rw [List.find?_cons_of_neg _ (by simpa using hca)]
      have hsr : s ∈ rest := by
        rcases List.mem_cons.mp hs with h | h
        · exact absurd (h ▸ hcov) hca
        · exact h
      exact ih hsr (fun s₁ h₁ s₂ h₂ =>
        huniq s₁ (List.mem_cons_of_mem a h₁) s₂ (List.mem_cons_of_mem a h₂))

/- ### Concrete evaluations of the construction loop -/

lemma build_imgA12_eq : buildTimeline [imgA] 12 = some tl12 := by
  have hm : minOcc [imgA] = 5 := by norm_num [minOcc, occDuration, imgA]
  have hc : (⌈(12:ℚ) / minOcc [imgA]⌉).toNat = 3 := by
    rw [hm]
    have h3 : ⌈(12:ℚ) / 5⌉ = 3 := by
      rw [Int.ceil_eq_iff]
      norm_num
    rw [h3]
    rfl
  rw [buildTimeline, hc]
  norm_num [buildAux, occDuration, imgA, tl12]

lemma build_imgA10_eq :
    buildTimeline [imgA] 10 = some [⟨0, 0, 5, imgA, 5⟩, ⟨1, 5, 10, imgA, 5⟩] := by
  have hm : minOcc [imgA] = 5 := by norm_num [minOcc, occDuration, imgA]
  have hc : (⌈(10:ℚ) / minOcc [imgA]⌉).toNat = 2 := by
    rw [hm]
    have h2 : ⌈(10:ℚ) / 5⌉ = 2 := by
      rw [Int.ceil_eq_iff]
      norm_num
    rw [h2]
    rfl
  rw [buildTimeline, hc]
  norm_num [buildAux, occDuration, imgA]

lemma build_vid12_10_eq : buildTimeline [vid12] 10 = some [segV] := by
  have hm : minOcc [vid12] = 5 := by norm_num [minOcc, occDuration, vid12]
  have hc : (⌈(10:ℚ) / minOcc [vid12]⌉).toNat = 2 := by
    rw [hm]
    have h2 : ⌈(10:ℚ) / 5⌉ = 2 := by
      rw [Int.ceil_eq_iff]
      norm_num
    rw [h2]
    rfl
  rw [buildTimeline, hc]
  norm_num [buildAux, occDuration, vid12, segV]

/- ### The in-segment offset -/

lemma jsMod_eq_fract (a b : ℚ) (hb : b ≠ 0) : jsMod a b = b * Int.fract (a / b) := by
  rw [jsMod, Int.fract, mul_sub, mul_div_cancel₀ a hb]

lemma jsMod_nonneg (a b : ℚ) (hb : 0 < b) : 0 ≤ jsMod a b := by
  rw [jsMod_eq_fract a b (ne_of_gt hb)]
  exact mul_nonneg hb.le (Int.fract_nonneg _)

lemma jsMod_lt (a b : ℚ) (hb : 0 < b) : jsMod a b < b := by
  rw [jsMod_eq_fract a b (ne_of_gt hb)]
  calc b * Int.fract (a / b) < b * 1 :=
        mul_lt_mul_of_pos_left (Int.fract_lt_one _) hb
    _ = b := mul_one b

/- ### Aspect-fit helper facts -/

lemma drawImageContain_isSome (iw ih cw ch : ℚ) (hiw : iw ≠ 0) (hih : ih ≠ 0) :
    ∃ r, drawImageContain iw ih cw ch = some r := by
  rw [drawImageContain]
  have hg : ¬ (iw = 0 ∨ ih = 0) := by push_neg; exact ⟨hiw, hih⟩
  rw [if_neg hg]
  by_cases hcmp : iw / ih > cw / ch
  · exact ⟨_, by rw [if_pos hcmp]⟩
  · exact ⟨_, by rw [if_neg hcmp]⟩

/- ### Claim theorems -/

/-- Claim C1: for every non-empty asset list (with the nonnegative decoded
durations browser media elements guarantee) and every totalDuration > 0, the
segment-construction loop terminates and yields a non-empty timeline whose
segments are contiguous and pairwise non-overlapping, whose first segment
starts at 0, whose last segment ends at or past totalDuration, and whose spans
cover all of [0, totalDuration) with no gaps. -/
theorem timeline_invariants (assets : List LoadedAsset) (total : ℚ)
    (hne : assets ≠ []) (hpos : 0 < total) (hnn : NonnegDurations assets) :
    ∃ tl, buildTimeline assets total = some tl ∧ tl ≠ [] ∧
      tl.head?.map Segment.startTime = some 0 ∧
      Contiguous tl ∧
      tl.Pairwise (fun a b => a.endTime ≤ b.startTime) ∧
      (∃ s, tl.getLast? = some s ∧ total ≤ s.endTime) ∧
      (∀ t : ℚ, 0 ≤ t → t < total → ∃ s ∈ tl, covers s t) := by
  obtain ⟨tl, htl⟩ :=
    Option.isSome_iff_exists.mp (buildTimeline_isSome assets total hne hnn)
  obtain ⟨h1, h2, h3, -⟩ := buildTimeline_spec assets total tl htl
  have hp := buildTimeline_pos_durations assets total tl hne hnn htl
  have hne' : tl ≠ [] := h3 hpos
  refine ⟨tl, htl, hne', ?_, contiguousFrom_contiguous 0 tl h1,
    contiguousFrom_pairwise 0 tl h1 hp, ?_, ?_⟩
  · cases tl with
    | nil => exact absurd rfl hne'
    | cons a rest => simpa using h1.1
  · obtain ⟨s, hs1, hs2⟩ := contiguousFrom_getLast 0 tl hne' h1
    exact ⟨s, hs1, hs2 ▸ h2⟩
  · exact fun t ht0 htt => contiguousFrom_coverage 0 tl h1 hp total h2 t ht0 htt

/-- Witness for C1 at the concrete input of one image asset and total 12. -/
theorem timeline_invariants_witness :
    ∃ tl, buildTimeline [imgA] 12 = some tl ∧ tl ≠ [] ∧
      tl.head?.map Segment.startTime = some 0 ∧
      Contiguous tl ∧
      tl.Pairwise (fun a b => a.endTime ≤ b.startTime) ∧
      (∃ s, tl.getLast? = some s ∧ (12:ℚ) ≤ s.endTime) ∧
      (∀ t : ℚ, 0 ≤ t → t < 12 → ∃ s ∈ tl, covers s t) :=
  timeline_invariants [imgA] 12 (by decide) (by norm_num) (by decide)

/-- Claim C2: for every elapsed time t in [0, totalDuration), exactly one
segment of the built timeline covers t (startTime ≤ t < endTime), the render
loop's lookup returns exactly that segment, and whenever t is the end boundary
of some segment, the owning segment starts at t (the later segment owns the
boundary instant, by the strict end comparison). -/
theorem active_segment_lookup (assets : List LoadedAsset) (total : ℚ)
    (hne : assets ≠ []) (hnn : NonnegDurations assets)
    (tl : List Segment) (htl : buildTimeline assets total = some tl)
    (t : ℚ) (ht0 : 0 ≤ t) (htt : t < total) :
    ∃ s ∈ tl, covers s t ∧
      (∀ u ∈ tl, covers u t → u = s) ∧
      findActive tl t = some s ∧
      (∀ u ∈ tl, u.endTime = t → s.startTime = t) := by
  obtain ⟨h1, h2, -, -⟩ := buildTimeline_spec assets total tl htl
  have hp := buildTimeline_pos_durations assets total tl hne hnn htl
  obtain ⟨s, hs, hcov⟩ := contiguousFrom_coverage 0 tl h1 hp total h2 t ht0 htt
  have huniq := contiguousFrom_unique 0 tl h1 hp t
  refine ⟨s, hs, hcov, fun u hu hcu => huniq u hu s hs hcu hcov, ?_, ?_⟩
  · unfold findActive
    rw [find?_covers_eq tl t s hs hcov huniq]
  · exact fun u hu hue => contiguousFrom_boundary 0 tl h1 hp t s hs hcov u hu hue

/-- Witness for C2 at one image asset, total 12, elapsed time 5 (a segment
boundary: the segment starting at 5 owns it). -/
theorem active_segment_lookup_witness :
    ∃ s ∈ tl12, covers s 5 ∧
      (∀ u ∈ tl12, covers u 5 → u = s) ∧
      findActive tl12 5 = some s ∧
      (∀ u ∈ tl12, u.endTime = 5 → s.startTime = 5) :=
  active_segment_lookup [imgA] 12 (by decide) (by decide) tl12 build_imgA12_eq
    5 (by norm_num) (by norm_num)

/-- Counterexample to claim C3: for a single image asset (5-second default)
and totalDuration 12 the builder's third segment is [10,15), not the claimed
[10,12) — the final segment is not truncated at totalDuration. -/
theorem scenario_12s_counterexample :
    (buildTimeline [imgA] 12).map (List.map (fun s => (s.startTime, s.endTime)))
        = some [(0, 5), (5, 10), (10, 15)] ∧
    some [((0:ℚ), (5:ℚ)), (5, 10), (10, 15)]
        ≠ some [((0:ℚ), (5:ℚ)), (5, 10), (10, 12)] := by
  constructor
  · rw [build_imgA12_eq]
    norm_num [tl12]
  · norm_num

/-- Claim C3 as amended: for a single image asset and totalDuration 12 the
builder yields exactly the three segments [0,5), [5,10), [10,15), all repeated
occurrences of the same image; the last segment overruns totalDuration by 3
seconds rather than being truncated to 2 (rendering simply stops at 12, so
only [10,12) of it is ever displayed: every tick at or past 12 stops the
recorder instead of rendering). -/
theorem scenario_12s_amended :
    buildTimeline [imgA] 12 = some tl12 ∧
    tl12.map Segment.startTime = [0, 5, 10] ∧
    tl12.map Segment.endTime = [5, 10, 15] ∧
    (∀ s ∈ tl12, s.asset = imgA) ∧
    (∃ s, tl12.getLast? = some s ∧ s.endTime = 15 ∧ (12:ℚ) ≤ s.endTime) ∧
    (∀ e : ℚ, (12:ℚ) ≤ e → (List.takeWhile (fun x => decide (x < (12:ℚ))) [e]) = []) := by
  refine ⟨build_imgA12_eq, by norm_num [tl12], by norm_num [tl12],
    by intro s hs; fin_cases hs <;> rfl, ⟨⟨2, 10, 15, imgA, 5⟩, rfl, by norm_num⟩, ?_⟩
  intro e he
  simp [List.takeWhile, not_lt.mpr he]

/-- Claim C9: a 10-second audio duration against a single image asset yields
exactly 2 segments of 5 s each; against a single 12-second video asset it
yields exactly 1 segment, which spans the whole audio interval [0,10); and a
video whose decoded duration is undeterminable falls back to the 5-second
default occurrence duration. -/
theorem roundtrip_10s :
    (buildTimeline [imgA] 10).map (List.map (fun s => (s.startTime, s.endTime)))
        = some [(0, 5), (5, 10)] ∧
    buildTimeline [vid12] 10 = some [segV] ∧
    segV.startTime = 0 ∧ segV.endTime = 12 ∧ segV.duration = 12 ∧
    (∀ t : ℚ, 0 ≤ t → t < 10 → covers segV t) ∧
    occDuration vidU = 5 := by
  refine ⟨?_, build_vid12_10_eq, rfl, rfl, rfl, ?_, rfl⟩
  · rw [build_imgA10_eq]
    norm_num
  · intro t ht0 htt
    constructor
    · simpa [segV] using ht0
    · simp only [segV]
      linarith

/-- Claim C5: for every source frame of positive natural dimensions and every
positive canvas size, aspect-fit placement succeeds; if the asset aspect
exceeds the canvas aspect the drawn frame fills canvas width and is vertically
centered, otherwise it fills canvas height and is horizontally centered; and
the drawn rectangle preserves the source aspect ratio exactly and lies
entirely within the canvas. -/
theorem aspect_fit (iw ih cw ch : ℚ) (hiw : 0 < iw) (hih : 0 < ih)
    (hcw : 0 < cw) (hch : 0 < ch) :
    ∃ r, drawImageContain iw ih cw ch = some r ∧
      r.renderW / r.renderH = iw / ih ∧
      0 < r.renderW ∧ 0 < r.renderH ∧
      0 ≤ r.offsetX ∧ 0 ≤ r.offsetY ∧
      r.offsetX + r.renderW ≤ cw ∧ r.offsetY + r.renderH ≤ ch ∧
      (iw / ih > cw / ch →
        r.renderW = cw ∧ r.offsetX = 0 ∧ 2 * r.offsetY + r.renderH = ch) ∧
      (¬ iw / ih > cw / ch →
        r.renderH = ch ∧ r.offsetY = 0 ∧ 2 * r.offsetX + r.renderW = cw) := by
  have hA : 0 < iw / ih := div_pos hiw hih
  have hiw' : iw ≠ 0 := ne_of_gt hiw
  have hih' : ih ≠ 0 := ne_of_gt hih
  have hch' : ch ≠ 0 := ne_of_gt hch
  have hg : ¬ (iw = 0 ∨ ih = 0) := by
    push_neg
    exact ⟨hiw', hih'⟩
  rw [drawImageContain, if_neg hg]
  by_cases hcmp : iw / ih > cw / ch
  · rw [if_pos hcmp]
    have h1 : cw < iw / ih * ch := (div_lt_iff₀ hch).mp hcmp
    have hH : cw / (iw / ih) < ch := by
      rw [div_lt_iff₀ hA]
      linarith
    have hHpos : 0 < cw / (iw / ih) := div_pos hcw hA
    refine ⟨_, rfl, ?_, hcw, hHpos, le_refl 0, by linarith, by linarith, by linarith,
      fun _ => ⟨rfl, rfl, by ring⟩, fun hn => absurd hcmp hn⟩
    field_simp
    ring
  · rw [if_neg hcmp]
    have hle : iw / ih ≤ cw / ch := le_of_not_lt hcmp
    have h1 : iw / ih * ch ≤ cw := (le_div_iff₀ hch).mp hle
    have hWpos : 0 < ch * (iw / ih) := mul_pos hch hA
    refine ⟨_, rfl, ?_, hWpos, hch, by linarith [mul_comm ch (iw / ih)], le_refl 0,
      by linarith [mul_comm ch (iw / ih)], by linarith,
      fun hc => absurd hc hcmp, fun _ => ⟨rfl, rfl, by ring⟩⟩
    field_simp
    ring

/-- Witness for C5 at a 4:3 frame in a 16:9 canvas. -/
theorem aspect_fit_witness :
    ∃ r, drawImageContain 4 3 16 9 = some r ∧
      r.renderW / r.renderH = 4 / 3 ∧
      0 < r.renderW ∧ 0 < r.renderH ∧
      0 ≤ r.offsetX ∧ 0 ≤ r.offsetY ∧
      r.offsetX + r.renderW ≤ 16 ∧ r.offsetY + r.renderH ≤ 9 ∧
      ((4:ℚ) / 3 > 16 / 9 →
        r.renderW = 16 ∧ r.offsetX = 0 ∧ 2 * r.offsetY + r.renderH = 9) ∧
      (¬ (4:ℚ) / 3 > 16 / 9 →
        r.renderH = 9 ∧ r.offsetY = 0 ∧ 2 * r.offsetX + r.renderW = 16) :=
  aspect_fit 4 3 16 9 (by norm_num) (by norm_num) (by norm_num) (by norm_num)

/-- Claim C4: at any tick whose active segment is a video, with elapsed t in
the segment's span, the compositor seeks the video handle to exactly
localOffset = (t - startTime) mod duration — an offset always inside [0,
duration) — before drawing the frame; an active image segment is drawn
directly with no seek. -/
theorem compositor_seek (tl : List Segment) (cw ch t : ℚ) (s : Segment)
    (hfind : findActive tl t = some s)
    (h1 : s.startTime ≤ t) (h2 : t < s.endTime)
    (hd : s.endTime = s.startTime + s.duration)
    (hw : 0 < s.asset.width) (hh : 0 < s.asset.height) :
    (s.asset.kind = AssetKind.video →
      ∃ r, renderTick tl cw ch t =
          [PaintOp.fillBlack, PaintOp.seek (jsMod (t - s.startTime) s.duration),
           PaintOp.draw r] ∧
        0 ≤ jsMod (t - s.startTime) s.duration ∧
        jsMod (t - s.startTime) s.duration < s.duration) ∧
    (s.asset.kind = AssetKind.image →
      ∃ r, renderTick tl cw ch t = [PaintOp.fillBlack, PaintOp.draw r]) := by
  have hdur : 0 < s.duration := by linarith
  obtain ⟨r, hr⟩ := drawImageContain_isSome s.asset.width s.asset.height cw ch
    (ne_of_gt hw) (ne_of_gt hh)
  refine ⟨fun hk => ⟨r, ?_, jsMod_nonneg _ _ hdur, jsMod_lt _ _ hdur⟩,
    fun hk => ⟨r, ?_⟩⟩
  · simp [renderTick, hfind, hk, hr]
  · simp [renderTick, hfind, hk, hr]

/-- Witness for C4 at a one-video timeline, elapsed time 3 (and the image side
holds vacuously since the segment's asset is a video). -/
theorem compositor_seek_witness :
    (segV.asset.kind = AssetKind.video →
      ∃ r, renderTick [segV] 1920 1080 3 =
          [PaintOp.fillBlack, PaintOp.seek (jsMod (3 - segV.startTime) segV.duration),
           PaintOp.draw r] ∧
        0 ≤ jsMod (3 - segV.startTime) segV.duration ∧
        jsMod (3 - segV.startTime) segV.duration < segV.duration) ∧
    (segV.asset.kind = AssetKind.image →
      ∃ r, renderTick [segV] 1920 1080 3 = [PaintOp.fillBlack, PaintOp.draw r]) :=
  compositor_seek [segV] 1920 1080 3 segV (by norm_num [findActive, covers, segV])
    (by norm_num [segV]) (by norm_num [segV]) (by norm_num [segV])
    (by norm_num [segV, vid12]) (by norm_num [segV, vid12])

/-- Claim C6: for an input of zero assets, the render pass fails on its guard
(the single thrown error, the spec's EmptyTimelineError) before any timeline is
built, and it never produces a render outcome — no tick is rendered and no
frame is ever submitted. -/
theorem zero_assets_fails (c : Content) (total : ℚ) (ticks : List ℚ)
    (h : c.assets = []) :
    renderPass c total ticks = Except.error "Missing content" ∧
    ∀ o : RenderOutcome, renderPass c total ticks ≠ Except.ok o := by
  have hempty : c.assets.isEmpty = true := by
    rw [h]
    rfl
  constructor
  · simp [renderPass, hempty]
  · intro o
    simp [renderPass, hempty]

/-- Witness for C6 at a concrete content value with audio but zero assets. -/
theorem zero_assets_fails_witness :
    renderPass ⟨some "narration.mp3", [], "16:9"⟩ 10 [0, 1, 2]
        = Except.error "Missing content" ∧
    ∀ o : RenderOutcome,
      renderPass ⟨some "narration.mp3", [], "16:9"⟩ 10 [0, 1, 2] ≠ Except.ok o :=
  zero_assets_fails ⟨some "narration.mp3", [], "16:9"⟩ 10 [0, 1, 2] rfl

/-- Counterexample to claim C7: at totalDuration = 0 (≤ 0) with one image
asset, the timeline builder does not fail at all — it succeeds with an empty
timeline, and the whole render pass succeeds with no segments and no frames. -/
theorem duration_guard_counterexample :
    buildTimeline [imgA] 0 = some [] ∧
    renderPass ⟨some "narration.mp3", [imgA], "16:9"⟩ 0 [0]
        = Except.ok ⟨[], []⟩ := by
  have hb : buildTimeline [imgA] 0 = some [] := by
    rw [buildTimeline]
    norm_num [buildAux]
  refine ⟨hb, ?_⟩
  rw [renderPass]
  norm_num [hb, List.takeWhile]

/-- Claim C7 as amended: an input with totalDuration ≤ 0 is not validated —
there is no InvalidDurationError; the construction loop exits immediately,
yielding an empty timeline, and (for a present audio URL, a non-empty asset
list and the nonnegative elapsed samples a real clock produces) the render
pass succeeds with an empty timeline and zero rendered frames. -/
theorem duration_nonpos_amended (assets : List LoadedAsset) (total : ℚ)
    (h : total ≤ 0) :
    buildTimeline assets total = some [] ∧
    ∀ (url sel : String) (ticks : List ℚ), assets ≠ [] →
      (∀ e ∈ ticks, 0 ≤ e) →
      renderPass ⟨some url, assets, sel⟩ total ticks = Except.ok ⟨[], []⟩ := by
  have hnl : ¬ (0:ℚ) < total := not_lt.mpr h
  have hb : buildTimeline assets total = some [] := by
    rw [buildTimeline, buildAux.eq_def, if_neg hnl]
  refine ⟨hb, ?_⟩
  intro url sel ticks hne hticks
  have hempty : assets.isEmpty = false := by
    cases assets with
    | nil => exact absurd rfl hne
    | cons a rest => rfl
  have htw : ticks.takeWhile (fun e => decide (e < total)) = [] := by
    cases ticks with
    | nil => rfl
    | cons e rest =>
      have he : ¬ e < total := by
        have := hticks e (List.mem_cons_self e rest)
        intro hlt
        linarith
      simp [List.takeWhile, he]
  rw [renderPass]
  simp [hempty, hb, htw]

/-- Witness for C7's amended claim at one image asset and totalDuration 0. -/
theorem duration_nonpos_amended_witness :
    buildTimeline [imgA] 0 = some [] ∧
    ∀ (url sel : String) (ticks : List ℚ), [imgA] ≠ [] →
      (∀ e ∈ ticks, 0 ≤ e) →
      renderPass ⟨some url, [imgA], sel⟩ 0 ticks = Except.ok ⟨[], []⟩ :=
  duration_nonpos_amended [imgA] 0 (by norm_num)

/-- Counterexample to claim C8: a finalization that saw zero chunks does not
fail with EmptyOutputError — the recorder's stop handler resolves successfully
with the empty blob. -/
theorem finalize_zero_counterexample :
    finalizeRecording [] = Except.ok [] ∧
    ∀ msg : String, finalizeRecording [] ≠ Except.error msg := by
  constructor
  · rfl
  · intro msg hcon
    cases hcon

/-- Claim C8 as amended: finalization never fails — for zero produced chunks
it returns the empty blob instead of an EmptyOutputError — and otherwise it
concatenates the collected nonempty chunks in arrival order (the kept chunks
are a sublist of the arrival sequence) into one output blob. -/
theorem finalize_concat (events : List (List Nat)) :
    finalizeRecording events = Except.ok (collectChunks events).flatten ∧
    (collectChunks events).Sublist events ∧
    ∀ msg : String, finalizeRecording events ≠ Except.error msg := by
  refine ⟨rfl, List.filter_sublist _, ?_⟩
  intro msg hcon
  cases hcon

/-- Claim C10: whenever the active frame's natural width or height is zero
(or unavailable, which the media element reports as zero), the aspect-fit
routine draws nothing — it returns before any aspect division — and the tick's
paint operations are the opaque-black clear (plus, for a video, the seek) with
no drawImage, so the canvas keeps the black clear. -/
theorem zero_dims_no_draw (iw ih cw ch : ℚ) (hz : iw = 0 ∨ ih = 0) :
    drawImageContain iw ih cw ch = none ∧
    ∀ (tl : List Segment) (t : ℚ) (s : Segment),
      findActive tl t = some s → s.asset.width = iw → s.asset.height = ih →
      ((renderTick tl cw ch t).head? = some PaintOp.fillBlack ∧
        ∀ r : DrawRect, PaintOp.draw r ∉ renderTick tl cw ch t) := by
  have hnone : drawImageContain iw ih cw ch = none := by
    rw [drawImageContain, if_pos hz]
  refine ⟨hnone, ?_⟩
  intro tl t s hfind hwx hhx
  have hnone' : drawImageContain s.asset.width s.asset.height cw ch = none := by
    rw [hwx, hhx]
    exact hnone
  cases hk : s.asset.kind with
  | image =>
    constructor
    · simp [renderTick, hfind, hk, hnone']
    · intro r
      simp [renderTick, hfind, hk, hnone']
  | video =>
    constructor
    · simp [renderTick, hfind, hk, hnone']
    · intro r
      simp [renderTick, hfind, hk, hnone']

/-- Witness for C10 at a zero-width frame in an active video segment. -/
theorem zero_dims_no_draw_witness :
    drawImageContain 0 9 1920 1080 = none ∧
    ∀ (tl : List Segment) (t : ℚ) (s : Segment),
      findActive tl t = some s → s.asset.width = 0 → s.asset.height = 9 →
      ((renderTick tl 1920 1080 t).head? = some PaintOp.fillBlack ∧
        ∀ r : DrawRect, PaintOp.draw r ∉ renderTick tl 1920 1080 t) :=
  zero_dims_no_draw 0 9 1920 1080 (Or.inl rfl)
